import Mathlib

/-!
Verification development for the 10-K PDF processing core
(`webview10k/utils/pdf_processor.py`).

The Python code is shallowly embedded over `List Char` strings:

* a rendered document is a `List (List RawSpan)`: one list of positioned
  text spans per (zero-based) page, as produced by the rendering library
  and consumed by `extract_text_with_formatting`;
* machine integers are `Nat`/`Int` (page numbers and coordinates are
  integers in every relevant code path; the numeric table values that the
  code produces via `float(...)` are exact integers for the token grammar
  involved, so they are modelled as `Int`);
* fallible code returns `Except PyErr`; an `Except.error` models an
  uncaught Python exception at that point.

Definitions are translated from the source and keep its names where Lean
allows it.
-/

set_option maxRecDepth 4000

/-- Strings are modelled as lists of characters. -/
abbrev Str := List Char

/-- Character list of a Lean string literal. -/
def lit (s : String) : Str := s.data

/-- Whitespace test for the `\s` regex class and Python `str.strip`. -/
def isWs (c : Char) : Bool := c = ' ' ∨ c = '\t' ∨ c = '\n' ∨ c = '\r'

/-- Python `text.split("\n")`. -/
def splitLines : Str → List Str
  | [] => [[]]
  | c :: rest =>
    if c = '\n' then [] :: splitLines rest
    else
      match splitLines rest with
      | [] => [[c]]
      | l :: ls => (c :: l) :: ls

/-- Python `sep.join(parts)`. -/
def joinSep (sep : Str) : List Str → Str
  | [] => []
  | [p] => p
  | p :: q :: rest => p ++ sep ++ joinSep sep (q :: rest)

/-- Python `"\n".join(parts)`. -/
def joinNl (parts : List Str) : Str := joinSep (lit "\n") parts

/-- Python `s.lstrip()` (whitespace). -/
def lstripWs (s : Str) : Str := s.dropWhile isWs

/-- Python `s.rstrip()` (whitespace). -/
def rstripWs (s : Str) : Str := (s.reverse.dropWhile isWs).reverse

/-- Python `s.strip()` (whitespace). -/
def stripWs (s : Str) : Str := rstripWs (lstripWs s)

/-- Numeric value of a digit string, as read by Python `int`. -/
def natOfDigits (ds : Str) : Nat := ds.foldl (fun n c => 10 * n + (c.toNat - 48)) 0

/-- Index of the first position of `t` at which the predicate holds of the
remaining suffix; models the scan a leftmost regex search performs. -/
def firstIdxWhere (p : Str → Bool) : Str → Option Nat
  | [] => if p [] then some 0 else none
  | c :: rest =>
    if p (c :: rest) then some 0
    else (firstIdxWhere p (rest : Str)).map (· + 1)

/-- Leftmost occurrence of a literal pattern, as found by `re.search` on an
escaped literal pattern. -/
def findSubstrIdx (pat : Str) (t : Str) : Option Nat :=
  firstIdxWhere (pat.isPrefixOf ·) t

/-- Python `pat in t` (substring containment). -/
def containsSub (pat : Str) (t : Str) : Bool := (findSubstrIdx pat t).isSome

/-- Python `text.replace("**", " ")`: non-overlapping left-to-right
replacement of the two-character marker by one space. -/
def replaceDoubleStar : Str → Str
  | '*' :: '*' :: rest => ' ' :: replaceDoubleStar rest
  | c :: rest => c :: replaceDoubleStar rest
  | [] => []

/-- Python `text.replace(a, b)` for single characters. -/
def replaceChar (a b : Char) (t : Str) : Str := t.map (fun c => if c = a then b else c)

/-- Python `p.isPrefixOf`-guarded drop: `some rest` when `p` is a literal
prefix of `s`, used for anchored (`re.match`) literal pieces. -/
def dropPre (p s : Str) : Option Str :=
  if p.isPrefixOf s then some (s.drop p.length) else none

/-- Python exceptions that the modelled code paths can raise. -/
inductive PyErr where
  | assertionError (msg : Str)
  | valueError (msg : Str)
  | indexError
  | fileNotFoundError
  deriving Repr, DecidableEq

instance {ε α : Type} [DecidableEq ε] [DecidableEq α] : DecidableEq (Except ε α) := fun x y =>
  match x, y with
  | .ok a, .ok b =>
    if h : a = b then .isTrue (by rw [h]) else .isFalse (fun hc => h (Except.ok.inj hc))
  | .error a, .error b =>
    if h : a = b then .isTrue (by rw [h]) else .isFalse (fun hc => h (Except.error.inj hc))
  | .ok _, .error _ => .isFalse (fun hc => Except.noConfusion hc)
  | .error _, .ok _ => .isFalse (fun hc => Except.noConfusion hc)

/-!  Layout reconstruction (`extract_text_with_formatting`, `create_text_by_page`). -/

/-- A raw span of one page, as yielded by the rendering library: its text,
bold/italic flags and the first two bounding-box coordinates (the only
span data `create_text_by_page` uses besides the page; `font_size` is
extracted by the source but never read). Coordinates are integers. -/
structure RawSpan where
  text : Str
  is_bold : Bool
  is_italic : Bool
  x : Int
  y : Int
  deriving Repr, DecidableEq

/-- A span tagged with its one-based page number, as built by
`extract_text_with_formatting` (`"page": page_num + 1`). -/
structure Span where
  page : Nat
  text : Str
  is_bold : Bool
  is_italic : Bool
  x : Int
  y : Int
  deriving Repr, DecidableEq

/-- Model of `extract_text_with_formatting(pdf_path, pages)`: the spans of
the requested zero-based pages, in page order, tagged with `page_num + 1`.
Callers establish that every requested page index is in range (the
`get_page_texts` assertions, or `range(len(doc))`). -/
def extractTextWithFormatting (doc : List (List RawSpan)) (pages : List Nat) : List Span :=
  pages.flatMap (fun p => (doc.getD p []).map
    (fun r => { page := p + 1, text := r.text, is_bold := r.is_bold,
                is_italic := r.is_italic, x := r.x, y := r.y }))

/-- The spans of the whole document (`pages=None` defaults to `range(len(doc))`). -/
def extractAll (doc : List (List RawSpan)) : List Span :=
  extractTextWithFormatting doc (List.range doc.length)

/-- A span's text wrapped in emphasis markers: bold text in `**`, italic in
`*` (bold wrapped first, as in the source). -/
def wrapSpanText (s : Span) : Str :=
  let t := s.text
  let t := if s.is_bold then lit "**" ++ t ++ lit "**" else t
  if s.is_italic then lit "*" ++ t ++ lit "*" else t

/-- One positioned line item of a page (`{"x": x, "y": y, "text": text}`). -/
structure LineItem where
  x : Int
  y : Int
  text : Str
  deriving Repr, DecidableEq

/-- Python `round(y / 5) * 5` for an integer `y`: the nearest multiple of 5
(the fractional parts of `y / 5` are in {0, .2, .4, .6, .8}, so round-half-
to-even ties never arise). -/
def round5 (y : Int) : Int :=
  if y.emod 5 ≤ 2 then y - y.emod 5 else y - y.emod 5 + 5

/-- Stable insertion sort by a key, modelling Python `sorted(..., key=...)`:
an element is inserted after existing elements with an equal key. -/
def insertK {α β : Type} [LinearOrder β] (key : α → β) (a : α) : List α → List α
  | [] => [a]
  | b :: bs => if key a < key b then a :: b :: bs else b :: insertK key a bs

/-- Stable sort by key (see `insertK`). -/
def sortK {α β : Type} [LinearOrder β] (key : α → β) : List α → List α
  | [] => []
  | a :: l => insertK key a (sortK key l)

/-- Python `sorted(d.keys())` for a dict whose keys were inserted in list
order: the distinct keys in ascending order. -/
def sortedKeys {β : Type} [LinearOrder β] (l : List β) : List β :=
  sortK id l.dedup

/-- Spacing and concatenation of one rendered line: for each item, at least
one space, else the horizontal gap divided by 4 (`int` truncates toward
zero); `prev_end` advances by `x + 4 * len(text)`. -/
def renderLineGo : Int → List LineItem → Str
  | _, [] => []
  | prevEnd, it :: rest =>
    let spaces := (max (Int.tdiv (it.x - prevEnd) 4) 1).toNat
    List.replicate spaces ' ' ++ it.text ++ renderLineGo (it.x + 4 * (it.text.length : Int)) rest

/-- One text line from its x-sorted items (`line_text` starting empty with
`prev_end = 0`, then right-stripped). -/
def renderLine (items : List LineItem) : Str := rstripWs (renderLineGo 0 items)

/-- The wrapped, positioned items of one one-based page. -/
def pageItems (spans : List Span) (p : Nat) : List LineItem :=
  (spans.filter (fun s => s.page = p)).map
    (fun s => { x := s.x, y := s.y, text := wrapSpanText s })

/-- One page's text: items bucketed into lines by `round(y/5)*5`, line keys
ascending, each line sorted by `x` and rendered, lines joined by newlines. -/
def renderPage (spans : List Span) (p : Nat) : Str :=
  let items := pageItems spans p
  let keys := sortedKeys (items.map (fun it => round5 it.y))
  joinNl (keys.map (fun k =>
    renderLine (sortK (fun it => it.x) (items.filter (fun it => round5 it.y = k)))))

/-- Model of `create_text_by_page`: one text block per page that has at
least one span, in ascending page order. -/
def createTextByPage (spans : List Span) : List Str :=
  (sortedKeys (spans.map (fun s => s.page))).map (renderPage spans)

/-!  `clean_text` and `get_page_texts`. -/

/-- Python `line.replace(" ", "").isdigit()`: the line is made of digits and
spaces only and contains at least one digit. -/
def isNumericLine (line : Str) : Bool :=
  let l := line.filter (fun c => c ≠ ' ')
  l ≠ [] ∧ l.all Char.isDigit

/-- Model of `clean_text`: drop lines that are just numbers, then drop lines
whose stripped form is exactly "Table of Contents". -/
def cleanText (t : Str) : Str :=
  let t1 := joinNl ((splitLines t).filter (fun l => ¬ isNumericLine l))
  joinNl ((splitLines t1).filter (fun l => stripWs l ≠ lit "Table of Contents"))

/-- The zero-based page indices `range(start_idx, end_idx)` for the integer
indices of `get_page_texts` (meaningful once `0 ≤ s`). -/
def intRangePages (s e : Int) : List Nat :=
  (List.range (e - s).toNat).map (fun k => s.toNat + k)

/-- Model of `get_page_texts(pdf_path, start_idx, end_idx=None)`: after the
three assertions (in source order), the requested pages are extracted,
reconstructed, cleaned page by page and joined by newlines. -/
def getPageTexts (doc : List (List RawSpan)) (startIdx : Int) (endIdxOpt : Option Int) :
    Except PyErr Str :=
  let endIdx := endIdxOpt.getD (startIdx + 1)
  if startIdx < endIdx then
    if 0 ≤ startIdx then
      if endIdx ≤ (doc.length : Int) then
        .ok (joinNl ((createTextByPage
          (extractTextWithFormatting doc (intRangePages startIdx endIdx))).map cleanText))
      else .error (.assertionError (lit "End index must be less than the number of pages in the PDF"))
    else .error (.assertionError (lit "Start index must be greater than or equal to 0"))
  else .error (.assertionError (lit "End index must be greater than start index"))

/-!  Document indexing (`get_pdf_info`). -/

/-- One index entry: `{description, start_page, end_page, part}`. -/
structure Entry where
  description : Str
  start_page : Nat
  end_page : Nat
  part : Option Str
  deriving Repr, DecidableEq

/-- Python `re.match(r"^PART [I|V]+", line)`: the raw line begins with
"PART " followed by at least one character of the class `[I|V]` (which
contains the literal bar). -/
def partLineTest (line : Str) : Bool :=
  match dropPre (lit "PART ") line with
  | some (c :: _) => c = 'I' ∨ c = '|' ∨ c = 'V'
  | _ => false

/-- Python `re.match(r"\s*Item (\d+[A-Z]?)\.\s*(.*?)\s+(\d+)\s*$", line)` on
an already stripped line, with the backtracking worked out: after optional
leading whitespace and the literal "Item ", the item number is the maximal
digit run, optionally followed by a single ASCII uppercase letter, and must
be followed by a period; the page is the maximal trailing digit run, which
must be preceded by at least one whitespace character; the description is
what lies between, with surrounding whitespace outside the lazy group.
Returns `(item_number, description_group, page)`. -/
def parseItemLine (line : Str) : Option (Str × Str × Nat) :=
  let s := line.dropWhile isWs
  match dropPre (lit "Item ") s with
  | none => none
  | some r1 =>
    let ds := r1.takeWhile Char.isDigit
    let r2 := r1.dropWhile Char.isDigit
    if ds = [] then none
    else
      match r2 with
      | '.' :: rest => parseItemLineTail ds rest
      | c :: '.' :: rest =>
        if 'A' ≤ c ∧ c ≤ 'Z' then parseItemLineTail (ds ++ [c]) rest else none
      | _ => none
where
  parseItemLineTail (num : Str) (rest : Str) : Option (Str × Str × Nat) :=
    let rev := rest.reverse
    let dsRev := rev.takeWhile Char.isDigit
    let rem := rev.dropWhile Char.isDigit
    if dsRev = [] then none
    else if rem.takeWhile isWs = [] then none
    else some (num, ((rem.dropWhile isWs).reverse).dropWhile isWs, natOfDigits dsRev.reverse)

/-- Python dict assignment `index_dict[key] = entry`: replace in place if
the key exists, else append. -/
def dictInsert (acc : List (Str × Entry)) (k : Str) (v : Entry) : List (Str × Entry) :=
  match acc with
  | [] => [(k, v)]
  | (k0, v0) :: rest =>
    if k0 = k then (k0, v) :: rest else (k0, v0) :: dictInsert rest k v

/-- The line loop of `get_pdf_info`: a "PART ..." line opens a new current
part; an item line creates an entry with `end_page` initialised to
`start_page` and the current part attached. -/
def parseIndexLinesGo (lines : List Str) (cur : Option Str) (acc : List (Str × Entry)) :
    List (Str × Entry) :=
  match lines with
  | [] => acc
  | line :: rest =>
    if partLineTest line then parseIndexLinesGo rest (some (stripWs line)) acc
    else
      match parseItemLine (stripWs line) with
      | some (num, desc, page) =>
        parseIndexLinesGo rest cur (dictInsert acc (lit "Item " ++ num)
          { description := stripWs desc, start_page := page, end_page := page, part := cur })
      | none => parseIndexLinesGo rest cur acc

/-- Entries parsed from the index page's lines. -/
def parseIndexLines (lines : List Str) : List (Str × Entry) :=
  parseIndexLinesGo lines none []

/-- The end-page update for one sorted-adjacent pair: same part and a later
start extend `end_page` to the next start (inclusive overlap); different
parts extend to the next start minus one, only when the starts differ. -/
def stepEnd (cur nxt : Entry) : Entry :=
  if cur.part = nxt.part then
    if cur.start_page < nxt.start_page then { cur with end_page := nxt.start_page } else cur
  else
    if cur.start_page < nxt.start_page then { cur with end_page := nxt.start_page - 1 } else cur

/-- The end-page loop of `get_pdf_info` over the entries sorted by
`start_page`: each entry is updated from its successor; only `end_page`
changes, and only at the entry's own position. -/
def endPagesSorted : List (Str × Entry) → List (Str × Entry)
  | [] => []
  | [e] => [e]
  | e1 :: e2 :: rest => (e1.1, stepEnd e1.2 e2.2) :: endPagesSorted (e2 :: rest)

/-- The index-page detection test of `get_pdf_info`: after replacing "**"
by a space, the page text contains both "PART I" and "Item 1.". -/
def hasIndexMarkers (t : Str) : Bool :=
  containsSub (lit "PART I") t ∧ containsSub (lit "Item 1.") t

/-- The page scan of `get_pdf_info`: for each page index in
`range(min(10, length))`, read the page via `get_page_texts`, replace "**"
by a space, and stop at the first page passing `hasIndexMarkers`. -/
def findIndexGo (doc : List (List RawSpan)) : List Nat → Except PyErr (Option Str)
  | [] => .ok none
  | p :: rest =>
    match getPageTexts doc (p : Int) none with
    | .error e => .error e
    | .ok t0 =>
      let t := replaceDoubleStar t0
      if hasIndexMarkers t then .ok (some t) else findIndexGo doc rest

/-- The scanned window and its outcome (`index_text`, possibly empty). -/
def findIndexText (doc : List (List RawSpan)) : Except PyErr (Option Str) :=
  findIndexGo doc (List.range (min 10 doc.length))

/-- Model of `get_pdf_info`: locate the index page in the first
`min(10, length)` pages or raise
`ValueError("Could not find index in first 10 pages")`; parse the page's
lines into entries and run the end-page loop. The entries are returned in
the sorted-by-`start_page` order in which the end-page loop visits them
(the source stores them back into its dict keyed by item; only the order
differs). The fiscal-year date scan of the source only fills a metadata
field and is not modelled (no claim concerns it). On success the source
writes the result to `pdf_info.json`; an error means nothing is written. -/
def getPdfInfo (doc : List (List RawSpan)) : Except PyErr (List (Str × Entry)) :=
  match findIndexText doc with
  | .error e => .error e
  | .ok none => .error (.valueError (lit "Could not find index in first 10 pages"))
  | .ok (some t) =>
    .ok (endPagesSorted (sortK (fun e => e.2.start_page) (parseIndexLines (splitLines t))))

/-!  Section segmentation (`process_pdf`). -/

/-- The anchored start pattern `f"\*\*{item.upper()}\."`: the literal
double marker, the upper-cased item key, and a period. -/
def startMarker (item : Str) : Str :=
  lit "**" ++ item.map Char.toUpper ++ lit "."

/-- Whether the regex `\*\*ITEM \d+[A-Z]?\.` matches at the head of `s`:
the literal "**ITEM ", at least one digit, an optional ASCII uppercase
letter, then a period (greediness does not affect match existence). -/
def itemHeadingTest (s : Str) : Bool :=
  match dropPre (lit "**ITEM ") s with
  | none => false
  | some r =>
    let ds := r.takeWhile Char.isDigit
    if ds = [] then false
    else
      match r.dropWhile Char.isDigit with
      | '.' :: _ => true
      | c :: '.' :: _ => decide ('A' ≤ c ∧ c ≤ 'Z')
      | _ => false

/-- The slicing step of `process_pdf` for one item over the window text:
find the first start marker (skip the item when absent), then cut just
before the first following "**ITEM <num>." heading, or keep everything to
the end of the window. -/
def sectionSlice (item : Str) (text : Str) : Option Str :=
  match findSubstrIdx (startMarker item) text with
  | none => none
  | some i =>
    let e := i + (startMarker item).length
    match firstIdxWhere itemHeadingTest (text.drop e) with
    | some j => some ((text.drop i).take ((startMarker item).length + j))
    | none => some (text.drop i)

/-- One iteration of the section loop of `process_pdf`: read the page
window `get_page_texts(pdf_path, start_page + 1, end_page + 2)` and slice
it. `.error` models an exception escaping the iteration, `.ok none` the
logged-and-skipped "start marker not found" case. -/
def processSectionItem (doc : List (List RawSpan)) (item : Str) (d : Entry) :
    Except PyErr (Option Str) :=
  match getPageTexts doc ((d.start_page : Int) + 1) (some ((d.end_page : Int) + 2)) with
  | .error e => .error e
  | .ok text => .ok (sectionSlice item text)

/-- The section loop of `process_pdf`: the whole `for` loop runs inside one
`try`, so an exception in one item ends the loop (the remaining items are
never processed), while a missing start marker just skips its item.
Returns the `(item, section_text)` files written. -/
def processSections (doc : List (List RawSpan)) : List (Str × Entry) → List (Str × Str)
  | [] => []
  | (item, d) :: rest =>
    match processSectionItem doc item d with
    | .error _ => []
    | .ok none => processSections doc rest
    | .ok (some s) => (item, s) :: processSections doc rest

/-- The page-break delimiter used by `process_pdf` to join pages. -/
def pageBreakJoin : Str := lit "\n\n======= Page Break =======\n\n"

/-- The full-text artifact written by `process_pdf`: the reconstructed
blocks of the whole document joined by the page-break delimiter, with no
`clean_text` applied. -/
def processPdfFullText (doc : List (List RawSpan)) : Str :=
  joinSep pageBreakJoin (createTextByPage (extractAll doc))

/-- The artifacts the upload flow produces for one document. -/
structure Artifacts where
  infoIndex : List (Str × Entry)
  sections : List (Str × Str)
  fullText : Str
  deriving Repr, DecidableEq

/-- The upload flow of `main_bp.index`: `get_pdf_info` runs first and an
exception there propagates before `process_pdf_async` is ever scheduled, so
no section files and no full-text artifact (hence no table work, which
reads the full-text artifact) are produced. -/
def uploadPipeline (doc : List (List RawSpan)) : Except PyErr Artifacts :=
  match getPdfInfo doc with
  | .error e => .error e
  | .ok idx => .ok { infoIndex := idx, sections := processSections doc idx,
                     fullText := processPdfFullText doc }

/-!  Financial table extraction (`extract_table`, `get_finance_tables`). -/

mutual

/-- Python `re.sub(r"\s+", " ", text)`: every maximal whitespace run
becomes a single space. -/
def normWs : Str → Str
  | [] => []
  | c :: rest => if isWs c then ' ' :: normWsSkip rest else c :: normWs rest

/-- Continuation of `normWs` inside a whitespace run. -/
def normWsSkip : Str → Str
  | [] => []
  | c :: rest => if isWs c then normWsSkip rest else c :: normWs rest

end

/-- The numeric character class `[\d,()\-]` of the row pattern. -/
def isNumChar (c : Char) : Bool :=
  c.isDigit ∨ c = ',' ∨ c = '(' ∨ c = ')' ∨ c = '-'

/-- The prefix of `s` cut just before its last newline, when `s` contains
one: the stop position greedy `\s*` backtracks to so that `$` can match. -/
def lastNlSplit : Str → Option Str
  | [] => none
  | c :: rest =>
    match lastNlSplit rest with
    | some p => some (c :: p)
    | none => if c = '\n' then some [] else none

/-- The tail `\s+([\d,()\-]+)\s+([\d,()\-]+)\s*([\d,()\-]+)?$` of the row
pattern matched at the head of `s` (multiline `$`: end of string or before
a newline). The whitespace and numeric classes are disjoint, so each
`\s+`/`[\d,()\-]+` consumes its maximal run; the only backtracking left is
greedy `\s*` giving characters back until it stops right before a newline,
dropping the optional fourth group. Returns groups 2-4 (group 4 empty when
absent, as in a `findall` tuple) and the consumed length. -/
def matchTail (s : Str) : Option (Str × Str × Str × Nat) :=
  let w1 := s.takeWhile isWs
  let r1 := s.dropWhile isWs
  if w1 = [] then none
  else
    let g2 := r1.takeWhile isNumChar
    let r2 := r1.dropWhile isNumChar
    if g2 = [] then none
    else
      let w2 := r2.takeWhile isWs
      let r3 := r2.dropWhile isWs
      if w2 = [] then none
      else
        let g3 := r3.takeWhile isNumChar
        let r4 := r3.dropWhile isNumChar
        if g3 = [] then none
        else
          let w3 := r4.takeWhile isWs
          let r5 := r4.dropWhile isWs
          let g4 := r5.takeWhile isNumChar
          let r6 := r5.dropWhile isNumChar
          if r6 = [] ∨ r6.head? = some '\n' then
            some (g2, g3, g4,
              w1.length + g2.length + w2.length + g3.length + w3.length + g4.length)
          else
            match lastNlSplit w3 with
            | some pre =>
              some (g2, g3, [], w1.length + g2.length + w2.length + g3.length + pre.length)
            | none => none

/-- The row pattern `^(.*?)\s+([\d,()\-]+)\s+([\d,()\-]+)\s*([\d,()\-]+)?$`
tried at a line-start position: the lazy group 1 grows from the empty
string (never across a newline) until the tail matches. Returns the four
groups and the consumed length. -/
def matchRowGo (acc : Str) (rest : Str) : Option ((Str × Str × Str × Str) × Nat) :=
  match matchTail rest with
  | some (g2, g3, g4, c) => some ((acc.reverse, g2, g3, g4), acc.length + c)
  | none =>
    match rest with
    | [] => none
    | c :: r => if c = '\n' then none else matchRowGo (c :: acc) r

/-- The row pattern matched at the head of `s` (a `^` position). -/
def matchRowAt (s : Str) : Option ((Str × Str × Str × Str) × Nat) :=
  matchRowGo [] s

/-- Scan step of `re.findall` for the row pattern: try the pattern at every
line-start position, resume scanning right after each match. The `skip`
counter walks the scanner over the characters a match consumed; the flag
records whether the previous character was a newline (a `^` position). -/
def findRowsGo : Nat → Bool → Str → List (Str × Str × Str × Str)
  | _ + 1, _, [] => []
  | skip + 1, _, c :: rest => findRowsGo skip (c = '\n') rest
  | 0, atStart, s =>
    match s with
    | [] => []
    | c :: rest =>
      if atStart then
        match matchRowAt s with
        | some (g, consumed) => g :: findRowsGo (consumed - 1) (c = '\n') rest
        | none => findRowsGo 0 (c = '\n') rest
      else findRowsGo 0 (c = '\n') rest

/-- Python `re.findall(row_pattern, table_text, re.MULTILINE)`. -/
def findAllRows (t : Str) : List (Str × Str × Str × Str) :=
  findRowsGo 0 true t

/-- Characters up to the first `)` of `s` when one occurs before any
newline: the lazy group of `\((.*?)\)` once its opening paren is fixed. -/
def closeParenScan : Str → Option Str
  | [] => none
  | c :: rest =>
    if c = ')' then some []
    else if c = '\n' then none
    else (closeParenScan rest).map (c :: ·)

/-- Python `re.search(r"\((.*?)\)", t)`: the group of the leftmost match,
i.e. the first `(` that a `)` follows on the same line. -/
def firstParenGroup : Str → Option Str
  | [] => none
  | c :: rest =>
    if c = '(' then
      match closeParenScan rest with
      | some g => some g
      | none => firstParenGroup rest
    else firstParenGroup rest

/-- Whether `\*\*(\d{4})\*\*` matches at the head of `s`; the year group. -/
def yearAt (s : Str) : Option Str :=
  match s with
  | '*' :: '*' :: d1 :: d2 :: d3 :: d4 :: '*' :: '*' :: _ =>
    if d1.isDigit ∧ d2.isDigit ∧ d3.isDigit ∧ d4.isDigit then some [d1, d2, d3, d4] else none
  | _ => none

/-- Scan of `re.findall(r"\*\*(\d{4})\*\*", t)`: non-overlapping, resuming
after the eight characters of each match. -/
def findYearsGo : Nat → Str → List Str
  | _ + 1, [] => []
  | skip + 1, _ :: rest => findYearsGo skip rest
  | 0, [] => []
  | 0, s@(_ :: rest) =>
    match yearAt s with
    | some y => y :: findYearsGo 7 rest
    | none => findYearsGo 0 rest

/-- Python `re.findall(r"\*\*(\d{4})\*\*", t)`. -/
def findYears (t : Str) : List Str := findYearsGo 0 t

/-- One cell of the extracted table: the category label or a numeric value
(`float` of the cleaned token, exact for this token grammar). -/
inductive Cell where
  | s (v : Str)
  | f (v : Int)
  deriving Repr, DecidableEq

/-- Token cleaning of `extract_table`:
`.replace(",", "").replace("(", "-").replace(")", "").strip("$")`. -/
def cleanTok (v : Str) : Str :=
  let v := v.filter (fun c => c ≠ ',')
  let v := v.map (fun c => if c = '(' then '-' else c)
  let v := v.filter (fun c => c ≠ ')')
  ((v.dropWhile (fun c => c = '$')).reverse.dropWhile (fun c => c = '$')).reverse

/-- Python `float(value)` on a cleaned token (digits and `-` only): an
optional leading minus then at least one digit, else `ValueError`. -/
def parseFloatTok (v : Str) : Except PyErr Int :=
  match v with
  | '-' :: ds =>
    if ds ≠ [] ∧ ds.all Char.isDigit then .ok (-(natOfDigits ds : Int))
    else .error (.valueError (lit "could not convert string to float"))
  | ds =>
    if ds ≠ [] ∧ ds.all Char.isDigit then .ok ((natOfDigits ds : Int))
    else .error (.valueError (lit "could not convert string to float"))

/-- One data row of `extract_table`: the stripped category label and the
`float`s of the nonempty numeric groups (the first `ValueError` escapes). -/
def rowOf (m : Str × Str × Str × Str) : Except PyErr (List Cell) :=
  match ([m.2.1, m.2.2.1, m.2.2.2].filter (fun v => v ≠ [])).mapM
      (fun v => parseFloatTok (cleanTok v)) with
  | .error e => .error e
  | .ok vals => .ok (.s (stripWs m.1) :: vals.map .f)

/-- The `pd.DataFrame(data, columns=columns)` of `extract_table`. -/
structure Frame where
  columns : List Str
  data : List (List Cell)
  deriving Repr, DecidableEq

/-- Model of `extract_table`: strip `$`, take the first parenthesised group
as the unit (else "Unknown unit"), collect the `**dddd**` years and the row
matches. `matches[0]` raises `IndexError` on an empty match list; columns
are "Category" plus `years[:len(matches[0]) - 1]` where a `findall` tuple
always has 4 components; the `pd.DataFrame` constructor raises
`ValueError` when a row's length differs from the column count. -/
def extractTable (text : Str) : Except PyErr (Frame × Str) :=
  let tableText := replaceChar '$' ' ' text
  let unit := (firstParenGroup tableText).getD (lit "Unknown unit")
  let years := findYears tableText
  let rowMatches := findAllRows tableText
  match rowMatches with
  | [] => .error .indexError
  | _ :: _ =>
    let columns := lit "Category" :: years.take (4 - 1)
    match rowMatches.mapM rowOf with
    | .error e => .error e
    | .ok data =>
      if data.all (fun r => r.length = columns.length) then .ok (⟨columns, data⟩, unit)
      else .error (.valueError (lit "columns passed, passed data had different columns"))

/-- The three statement names of the `get_finance_tables` pattern, in
alternation order. -/
def stmtNames : List Str :=
  [lit "Balance Sheets",
   lit "Statements of Operations and Comprehensive Loss",
   lit "Statements of Cash Flows"]

/-- Whether `F-\d+` matches at the head of `s`; greedy digits. -/
def fRefAt (s : Str) : Option Str :=
  match s with
  | 'F' :: '-' :: c :: rest =>
    if c.isDigit then some ('F' :: '-' :: c :: rest.takeWhile Char.isDigit) else none
  | _ => none

/-- Lazy `.*?(F-\d+)`: the earliest following page-reference token, not
crossing a newline; returns the token and its offset. -/
def findFRefGo : Str → Option (Str × Nat)
  | [] => none
  | c :: rest =>
    if c = '\n' then none
    else
      match fRefAt (c :: rest) with
      | some ref => some (ref, 0)
      | none => (findFRefGo rest).map (fun p => (p.1, p.2 + 1))

/-- The statement pattern
`(Balance Sheets|Statements of Operations and Comprehensive Loss|Statements of Cash Flows).*?(F-\d+)`
matched at the head of `s` (the alternatives are mutually exclusive at any
one position): the two groups and the consumed length. -/
def stmtMatchAt (s : Str) : Option ((Str × Str) × Nat) :=
  match stmtNames.find? (fun n => n.isPrefixOf s) with
  | none => none
  | some name =>
    match findFRefGo (s.drop name.length) with
    | some (ref, j) => some ((name, ref), name.length + j + ref.length)
    | none => none

/-- Scan of `re.findall` for the statement pattern: try every position left
to right, resume after each match. -/
def findStmtGo : Nat → Str → List (Str × Str)
  | _ + 1, [] => []
  | skip + 1, _ :: rest => findStmtGo skip rest
  | 0, [] => []
  | 0, s@(_ :: rest) =>
    match stmtMatchAt s with
    | some (g, consumed) => g :: findStmtGo (consumed - 1) rest
    | none => findStmtGo 0 rest

/-- Python `re.findall(statement_pattern, cleaned_text)`. -/
def findStatementMatches (t : Str) : List (Str × Str) := findStmtGo 0 t

/-- Pandas `drop_duplicates()`: keep the first occurrence of each value. -/
def dedupFirst {α : Type} [DecidableEq α] : List α → List α :=
  go []
where
  go (seen : List α) : List α → List α
    | [] => []
    | a :: rest => if a ∈ seen then go seen rest else a :: go (a :: seen) rest

/-- The delimiter `get_finance_tables` splits the full text on - note the
trailing space, absent from the delimiter `process_pdf` joins with. -/
def pageBreakSplitSep : Str := lit "\n\n======= Page Break =======\n\n "

/-- Python `text.split(sep)` for a nonempty separator: non-overlapping,
leftmost-first. The `skip` counter walks over a matched separator. -/
def splitSepGo (sep : Str) : Nat → Str → Str → List Str
  | _ + 1, acc, [] => [acc.reverse]
  | skip + 1, acc, _ :: rest => splitSepGo sep skip acc rest
  | 0, acc, [] => [acc.reverse]
  | 0, acc, s@(c :: rest) =>
    if sep.isPrefixOf s then acc.reverse :: splitSepGo sep (sep.length - 1) [] rest
    else splitSepGo sep 0 (c :: acc) rest

/-- Python `text.split(sep)`. -/
def splitSep (sep : Str) (t : Str) : List Str := splitSepGo sep 0 [] t

/-- The page lookup of `get_finance_tables`: the first split page whose
stripped text ends with the page-reference token, else the empty string. -/
def pageLookup (pages : List Str) (ref : Str) : Str :=
  (pages.find? (fun p => ref.isSuffixOf (stripWs p))).getD []

/-- One extracted financial statement. -/
structure FinTable where
  statement : Str
  unit : Str
  data : List (List (Str × Cell))
  deriving Repr, DecidableEq

/-- The statement loop of `get_finance_tables`: for each deduplicated
(statement, page-ref) match, look up its page and run `extract_table`
(`df.to_dict(orient="records")` pairs each row with the column names); an
exception from `extract_table` propagates and ends everything. -/
def financeLoop (pages : List Str) : List (Str × Str) → Except PyErr (List FinTable)
  | [] => .ok []
  | (name, ref) :: rest =>
    match extractTable (pageLookup pages ref) with
    | .error e => .error e
    | .ok (f, unit) =>
      match financeLoop pages rest with
      | .error e => .error e
      | .ok ts =>
        .ok ({ statement := name, unit := unit,
               data := f.data.map (fun r => f.columns.zip r) } :: ts)

/-- Model of `get_finance_tables` on the persisted full text: normalise
whitespace, find and deduplicate the (statement, page-ref) matches, split
the raw text on the page-break separator, and extract each statement's
table. -/
def getFinanceTables (fullText : Str) : Except PyErr (List FinTable) :=
  let cleaned := normWs fullText
  let stmtMatches := findStatementMatches cleaned
  let pages := splitSep pageBreakSplitSep fullText
  financeLoop pages (dedupFirst stmtMatches)

/-!  Metadata (`get_pdf_metadata`). -/

/-- A `pathlib.Path`, kept only for its truthiness in `get_pdf_metadata`. -/
structure PyPath where
  parts : List Str
  deriving Repr, DecidableEq

/-- Python `bool(path)`: `pathlib.Path` defines neither a `__bool__` nor a
`__len__` method, so every `Path` object is truthy. -/
def pathBool (_ : PyPath) : Bool := true

/-- The `metadata` object of a persisted `pdf_info.json`. -/
structure InfoFileMeta where
  fiscal_year_date : Option Str
  file_name : Str
  length : Nat
  deriving Repr, DecidableEq

/-- The dictionary `get_pdf_metadata` returns. -/
structure MetadataOut where
  num_pages : Nat
  preview : Str
  filename : Str
  fiscal_year_date : Option Str
  deriving Repr, DecidableEq

/-- Model of `get_pdf_metadata`: read the first page, then branch on
`not data_dir / "pdf_info.json"` - which Python parses as
`not (data_dir / "pdf_info.json")`, the negated truthiness of a `Path`.
`infoFile` is the parsed content of `pdf_info.json` when that file exists.
In the recompute branch the fiscal-year metadata field is not modelled;
that branch is unreachable (theorem `c10_guard_unreachable`). -/
def getPdfMetadata (doc : List (List RawSpan)) (dataDir : PyPath)
    (infoFile : Option InfoFileMeta) (pdfName : Str) : Except PyErr MetadataOut :=
  match getPageTexts doc 0 none with
  | .error e => .error e
  | .ok first_page =>
    if pathBool ⟨dataDir.parts ++ [lit "pdf_info.json"]⟩ = false then
      match getPdfInfo doc with
      | .error e => .error e
      | .ok _ =>
        .ok { num_pages := doc.length, preview := first_page, filename := pdfName,
              fiscal_year_date := none }
    else
      match infoFile with
      | none => .error .fileNotFoundError
      | some info =>
        .ok { num_pages := info.length, preview := first_page, filename := pdfName,
              fiscal_year_date := info.fiscal_year_date }

/-!  Helper lemmas: stable sort and entry parsing. -/

lemma insertK_head {α β : Type} [LinearOrder β] (key : α → β) (a : α) (l : List α) :
    (insertK key a l).head? = some a ∨ (insertK key a l).head? = l.head? := by
  cases l with
  | nil => left; rfl
  | cons b bs =>
    by_cases h : key a < key b
    · left; simp [insertK, h]
    · right; simp [insertK, h]

lemma chain_insertK {α β : Type} [LinearOrder β] (key : α → β) (a : α) (l : List α)
    (h : List.Chain' (fun x y => key x ≤ key y) l) :
    List.Chain' (fun x y => key x ≤ key y) (insertK key a l) := by
  induction l with
  | nil => simp [insertK]
  | cons b bs ih =>
    by_cases hab : key a < key b
    · simpa [insertK, hab, List.chain'_cons] using ⟨le_of_lt hab, h⟩
    · have hba : key b ≤ key a := le_of_not_lt hab
      have htail : List.Chain' (fun x y => key x ≤ key y) (insertK key a bs) :=
        ih h.tail
      have hd : ∀ y ∈ (insertK key a bs).head?, key b ≤ key y := by
        intro y hy
        rcases insertK_head key a bs with hh | hh
        · rw [hh] at hy; simp at hy; subst hy; exact hba
        · rw [hh] at hy
          cases bs with
          | nil => simp at hy
          | cons c cs =>
            simp at hy; subst hy
            exact (List.chain'_cons.mp h).1
      simpa [insertK, hab] using List.chain'_cons'.mpr ⟨hd, htail⟩

lemma chain_sortK {α β : Type} [LinearOrder β] (key : α → β) (l : List α) :
    List.Chain' (fun x y => key x ≤ key y) (sortK key l) := by
  induction l with
  | nil => simp [sortK]
  | cons a l ih => exact chain_insertK key a _ ih

lemma mem_insertK {α β : Type} [LinearOrder β] (key : α → β) (a x : α) (l : List α) :
    x ∈ insertK key a l ↔ x = a ∨ x ∈ l := by
  induction l with
  | nil => simp [insertK]
  | cons b bs ih =>
    by_cases h : key a < key b
    · simp only [insertK, if_pos h, List.mem_cons]
    · simp only [insertK, if_neg h, List.mem_cons, ih]
      tauto

lemma mem_sortK {α β : Type} [LinearOrder β] (key : α → β) (x : α) (l : List α) :
    x ∈ sortK key l ↔ x ∈ l := by
  induction l with
  | nil => simp [sortK]
  | cons a bs ih => simp [sortK, mem_insertK, ih]

lemma mem_dictInsert (acc : List (Str × Entry)) (k : Str) (v : Entry) (x : Str × Entry)
    (h : x ∈ dictInsert acc k v) : x ∈ acc ∨ x = (k, v) := by
  induction acc with
  | nil =>
    simp [dictInsert] at h
    simp [h]
  | cons p rest ih =>
    rcases p with ⟨k0, v0⟩
    by_cases hk : k0 = k
    · rw [dictInsert, if_pos hk] at h
      rcases List.mem_cons.mp h with h | h
      · right; rw [h, hk]
      · left; exact List.mem_cons_of_mem _ h
    · rw [dictInsert, if_neg hk] at h
      rcases List.mem_cons.mp h with h | h
      · left; rw [h]; exact List.mem_cons_self _ _
      · rcases ih h with h' | h'
        · exact Or.inl (List.mem_cons_of_mem _ h')
        · exact Or.inr h'

lemma parseIndexLinesGo_end_eq (lines : List Str) :
    ∀ (cur : Option Str) (acc : List (Str × Entry)),
      (∀ e ∈ acc, e.2.end_page = e.2.start_page) →
      ∀ e ∈ parseIndexLinesGo lines cur acc, e.2.end_page = e.2.start_page := by
  induction lines with
  | nil => intro cur acc hacc e he; exact hacc e he
  | cons line rest ih =>
    intro cur acc hacc e he
    by_cases hp : partLineTest line
    · rw [parseIndexLinesGo, if_pos hp] at he
      exact ih _ _ hacc e he
    · rw [parseIndexLinesGo, if_neg hp] at he
      cases hm : parseItemLine (stripWs line) with
      | none => rw [hm] at he; exact ih _ _ hacc e he
      | some t =>
        rcases t with ⟨num, desc, page⟩
        rw [hm] at he
        refine ih _ _ ?_ e he
        intro e' he'
        rcases mem_dictInsert _ _ _ _ he' with h' | h'
        · exact hacc e' h'
        · simp [h']

lemma parseIndexLines_end_eq (lines : List Str) :
    ∀ e ∈ parseIndexLines lines, e.2.end_page = e.2.start_page :=
  parseIndexLinesGo_end_eq lines none [] (by simp)

lemma stepEnd_start (c n : Entry) : (stepEnd c n).start_page = c.start_page := by
  unfold stepEnd; split <;> split <;> rfl

lemma stepEnd_part (c n : Entry) : (stepEnd c n).part = c.part := by
  unfold stepEnd; split <;> split <;> rfl

/-- The three end-page facts the claim states of one sorted-adjacent pair. -/
def adjOK (a b : Str × Entry) : Prop :=
  (a.2.part = b.2.part → a.2.start_page < b.2.start_page → a.2.end_page = b.2.start_page) ∧
  (a.2.part ≠ b.2.part → a.2.start_page < b.2.start_page → a.2.end_page = b.2.start_page - 1) ∧
  (a.2.start_page = b.2.start_page → a.2.end_page = a.2.start_page)

instance (a b : Str × Entry) : Decidable (adjOK a b) := by
  unfold adjOK; infer_instance

lemma endPagesSorted_cons_cons (e1 e2 : Str × Entry) (rest : List (Str × Entry)) :
    endPagesSorted (e1 :: e2 :: rest) =
      (e1.1, stepEnd e1.2 e2.2) :: endPagesSorted (e2 :: rest) := rfl

lemma endPagesSorted_head (p : Str × Entry) (l : List (Str × Entry)) :
    ∃ d tl, endPagesSorted (p :: l) = (p.1, d) :: tl ∧
      d.start_page = p.2.start_page ∧ d.part = p.2.part := by
  cases l with
  | nil => exact ⟨p.2, [], by simp [endPagesSorted], rfl, rfl⟩
  | cons q rest =>
    exact ⟨stepEnd p.2 q.2, endPagesSorted (q :: rest),
      endPagesSorted_cons_cons p q rest, stepEnd_start _ _, stepEnd_part _ _⟩

lemma endPages_spec (l : List (Str × Entry))
    (hchain : List.Chain' (fun a b => a.2.start_page ≤ b.2.start_page) l)
    (hinit : ∀ e ∈ l, e.2.end_page = e.2.start_page) :
    (∀ e ∈ endPagesSorted l, e.2.start_page ≤ e.2.end_page) ∧
      List.Chain' adjOK (endPagesSorted l) := by
  induction l with
  | nil => simp [endPagesSorted]
  | cons e1 l ih =>
    cases l with
    | nil =>
      constructor
      · intro e he
        have h1 : e = e1 := by simpa [endPagesSorted] using he
        rw [h1]
        exact le_of_eq (hinit e1 (by simp)).symm
      · simp [endPagesSorted]
    | cons e2 rest =>
      have h12 : e1.2.start_page ≤ e2.2.start_page := (List.chain'_cons.mp hchain).1
      have hinit1 : e1.2.end_page = e1.2.start_page := hinit e1 (by simp)
      have ihres := ih (List.chain'_cons.mp hchain).2 (fun e he => hinit e (by simp [he]))
      rw [endPagesSorted_cons_cons]
      constructor
      · intro e he
        rcases List.mem_cons.mp he with h | h
        · rw [h]
          show (e1.1, stepEnd e1.2 e2.2).2.start_page ≤ (e1.1, stepEnd e1.2 e2.2).2.end_page
          rw [stepEnd_start]
          unfold stepEnd
          by_cases hp : e1.2.part = e2.2.part
          · rw [if_pos hp]
            by_cases hl : e1.2.start_page < e2.2.start_page
            · rw [if_pos hl]
              show e1.2.start_page ≤ e2.2.start_page
              omega
            · rw [if_neg hl]
              show e1.2.start_page ≤ e1.2.end_page
              omega
          · rw [if_neg hp]
            by_cases hl : e1.2.start_page < e2.2.start_page
            · rw [if_pos hl]
              show e1.2.start_page ≤ e2.2.start_page - 1
              omega
            · rw [if_neg hl]
              show e1.2.start_page ≤ e1.2.end_page
              omega
        · exact ihres.1 e h
      · rcases endPagesSorted_head e2 rest with ⟨d, tl, hd, hds, hdp⟩
        rw [hd]
        rw [hd] at ihres
        refine List.chain'_cons.mpr ⟨?_, ihres.2⟩
        refine ⟨?_, ?_, ?_⟩
        · intro hpart hlt
          simp only [stepEnd_part, hdp] at hpart
          simp only [stepEnd_start, hds] at hlt
          show (stepEnd e1.2 e2.2).end_page = (e2.1, d).2.start_page
          simp only [hds]
          simp [stepEnd, hpart, hlt]
        · intro hpart hlt
          simp only [stepEnd_part, hdp] at hpart
          simp only [stepEnd_start, hds] at hlt
          show (stepEnd e1.2 e2.2).end_page = (e2.1, d).2.start_page - 1
          simp only [hds]
          simp [stepEnd, hpart, hlt]
        · intro hstart
          simp only [stepEnd_start, hds] at hstart
          show (stepEnd e1.2 e2.2).end_page = (e1.1, stepEnd e1.2 e2.2).2.start_page
          have hnl : ¬ e1.2.start_page < e2.2.start_page := by omega
          rw [stepEnd_start]
          simp [stepEnd, hnl, hinit1]

/-!  Claim theorems. -/

/-- C1. For every parsed DocumentIndex produced by `get_pdf_info`, after
end-page computation the entries sorted by `start_page` satisfy: every
entry has `start_page ≤ end_page`; adjacent entries in the same part with
differing start pages get the earlier `end_page` equal to the later
`start_page` (inclusive overlap); adjacent entries in different parts with
differing start pages get the earlier `end_page` equal to the later
`start_page` minus one; and when adjacent start pages coincide the earlier
`end_page` stays equal to its own `start_page`. -/
theorem c1_index_end_page_invariant (doc : List (List RawSpan)) (idx : List (Str × Entry))
    (h : getPdfInfo doc = .ok idx) :
    (∀ e ∈ idx, e.2.start_page ≤ e.2.end_page) ∧ List.Chain' adjOK idx := by
  unfold getPdfInfo at h
  cases hf : findIndexText doc with
  | error e => rw [hf] at h; exact absurd h (by simp)
  | ok o =>
    cases o with
    | none => rw [hf] at h; exact absurd h (by simp)
    | some t =>
      rw [hf] at h
      have hidx : idx =
          endPagesSorted (sortK (fun e => e.2.start_page) (parseIndexLines (splitLines t))) := by
        exact (Except.ok.inj h).symm
      rw [hidx]
      exact endPages_spec _
        (chain_sortK (fun e : Str × Entry => e.2.start_page) _)
        (fun e he => parseIndexLines_end_eq _ e
          ((mem_sortK (fun e : Str × Entry => e.2.start_page) e _).mp he))

/-- Concrete document whose first page renders to an index page with two
items in the same (absent) part context. -/
def docC1 : List (List RawSpan) :=
  [[⟨lit "PART I", false, false, 0, 0⟩,
    ⟨lit "Item 1. Business 5", false, false, 0, 10⟩,
    ⟨lit "Item 2. Properties 8", false, false, 0, 20⟩]]

/-- Witness for C1: on `docC1`, `get_pdf_info` succeeds with a concrete
index and the invariant holds of it. -/
theorem c1_index_end_page_invariant_witness :
    getPdfInfo docC1 =
      .ok [(lit "Item 1", ⟨lit "Business", 5, 8, none⟩),
           (lit "Item 2", ⟨lit "Properties", 8, 8, none⟩)] ∧
    ((∀ e ∈ [(lit "Item 1", (⟨lit "Business", 5, 8, none⟩ : Entry)),
             (lit "Item 2", ⟨lit "Properties", 8, 8, none⟩)],
        e.2.start_page ≤ e.2.end_page) ∧
      List.Chain' adjOK [(lit "Item 1", ⟨lit "Business", 5, 8, none⟩),
                         (lit "Item 2", ⟨lit "Properties", 8, 8, none⟩)]) :=
  ⟨by decide, c1_index_end_page_invariant docC1 _ (by decide)⟩

/-- C6. On the page text
"Balance Sheets (in thousands) **2023** **2022**\nTotal assets 1,234 (567)",
`extract_table` returns unit "in thousands" and exactly one data row
pairing "Total assets" with 1234.0 under column 2023 and -567.0 under
column 2022: the thousands separator is stripped and the parenthesised
token becomes a negative value. -/
theorem c6_extract_table_example :
    extractTable (lit "Balance Sheets (in thousands) **2023** **2022**\nTotal assets 1,234 (567)") =
      .ok (⟨[lit "Category", lit "2023", lit "2022"],
            [[Cell.s (lit "Total assets"), Cell.f 1234, Cell.f (-567)]]⟩,
           lit "in thousands") := by
  decide

/-- C10. `get_pdf_metadata` always takes the branch that reads
`pdf_info.json`: the guard `not data_dir / "pdf_info.json"` is the negated
truthiness of a `Path`, which is always true, so the
recompute-via-`get_pdf_info` branch is unreachable - for every input the
call behaves exactly like the read branch, and raises (rather than
rebuilding the index) whenever `pdf_info.json` does not exist. -/
theorem c10_guard_unreachable (doc : List (List RawSpan)) (dataDir : PyPath)
    (infoFile : Option InfoFileMeta) (pdfName : Str) :
    (getPdfMetadata doc dataDir infoFile pdfName =
      match getPageTexts doc 0 none with
      | .error e => .error e
      | .ok fp =>
        match infoFile with
        | none => Except.error PyErr.fileNotFoundError
        | some info =>
          .ok { num_pages := info.length, preview := fp, filename := pdfName,
                fiscal_year_date := info.fiscal_year_date }) ∧
    (∀ fp, getPageTexts doc 0 none = .ok fp → infoFile = none →
      getPdfMetadata doc dataDir infoFile pdfName = .error .fileNotFoundError) := by
  constructor
  · unfold getPdfMetadata
    cases getPageTexts doc 0 none with
    | error e => rfl
    | ok fp => simp [pathBool]
  · intro fp hfp hnone
    unfold getPdfMetadata
    rw [hfp, hnone]
    simp [pathBool]

/-- Witness for C10: a one-page document with no persisted
`pdf_info.json`, where the call raises `FileNotFoundError`. -/
theorem c10_guard_unreachable_witness :
    getPageTexts [[⟨lit "x", false, false, 0, 0⟩]] 0 none = .ok (lit " x") ∧
    getPdfMetadata [[⟨lit "x", false, false, 0, 0⟩]] ⟨[lit "data"]⟩ none (lit "a.pdf") =
      .error .fileNotFoundError :=
  ⟨by decide,
   (c10_guard_unreachable [[⟨lit "x", false, false, 0, 0⟩]] ⟨[lit "data"]⟩ none (lit "a.pdf")).2
     (lit " x") (by decide) rfl⟩

/-- C8. `get_page_texts(pdf_path, start_idx, end_idx)` raises an
`AssertionError` exactly when `0 ≤ start_idx < end_idx ≤ number of pages`
fails, with `end_idx` defaulting to `start_idx + 1` when omitted; in
particular, for an index entry whose `end_page + 2` exceeds the document's
page count, the segmenter's `get_page_texts` call fails rather than
reading a truncated window. -/
theorem c8_page_index_assertions (doc : List (List RawSpan)) (s : Int) (eOpt : Option Int) :
    ((∃ err, getPageTexts doc s eOpt = .error err) ↔
      ¬ (0 ≤ s ∧ s < eOpt.getD (s + 1) ∧ eOpt.getD (s + 1) ≤ (doc.length : Int))) ∧
    (∀ (item : Str) (d : Entry), (doc.length : Int) < (d.end_page : Int) + 2 →
      ∃ err, processSectionItem doc item d = .error err) := by
  constructor
  · unfold getPageTexts
    by_cases h1 : s < eOpt.getD (s + 1)
    · by_cases h2 : (0 : Int) ≤ s
      · by_cases h3 : eOpt.getD (s + 1) ≤ (doc.length : Int)
        · simp [h1, h2, h3]
        · simp [h1, h2, h3]
      · simp [h1, h2]
    · simp [h1]
  · intro item d h
    unfold processSectionItem
    cases hres : getPageTexts doc ((d.start_page : Int) + 1) (some ((d.end_page : Int) + 2)) with
    | error e => exact ⟨e, rfl⟩
    | ok t =>
      exfalso
      unfold getPageTexts at hres
      by_cases h1 : ((d.start_page : Int) + 1) < Option.getD (some ((d.end_page : Int) + 2)) (((d.start_page : Int) + 1) + 1)
      · rw [if_pos h1] at hres
        by_cases h2 : (0 : Int) ≤ (d.start_page : Int) + 1
        · rw [if_pos h2] at hres
          have h3 : ¬ (Option.getD (some ((d.end_page : Int) + 2)) (((d.start_page : Int) + 1) + 1) ≤ (doc.length : Int)) := by
            simp only [Option.getD_some]
            omega
          rw [if_neg h3] at hres
          exact Except.noConfusion hres
        · rw [if_neg h2] at hres
          exact Except.noConfusion hres
      · rw [if_neg h1] at hres
        exact Except.noConfusion hres

/-- Witness for C8: on an empty document, `get_page_texts` with a negative
start index fails, and the segmenter's window read for an entry with
`end_page + 2` beyond the page count fails. -/
theorem c8_page_index_assertions_witness :
    (∃ err, getPageTexts ([] : List (List RawSpan)) (-1) none = .error err) ∧
    (∃ err, processSectionItem ([] : List (List RawSpan)) (lit "Item 1")
      ⟨[], 0, 0, none⟩ = .error err) :=
  ⟨(c8_page_index_assertions [] (-1) none).1.mpr (by decide),
   (c8_page_index_assertions [] (-1) none).2 (lit "Item 1") ⟨[], 0, 0, none⟩ (by decide)⟩

/-- C2 counterexample. The full text "Balance Sheets F-2" contains a
statement name co-occurring with an F-page reference, and its page yields
zero parsable rows; the claim says this yields one entry with an empty row
list, but `extract_table` evaluates `matches[0]` on the empty match list
and raises `IndexError`, aborting the whole extraction. -/
theorem c2_zero_rows_counterexample :
    findStatementMatches (normWs (lit "Balance Sheets F-2")) =
      [(lit "Balance Sheets", lit "F-2")] ∧
    getFinanceTables (lit "Balance Sheets F-2") = .error .indexError := by
  decide

/-- C2 amended. A deduplicated (statement, page-reference) match whose page
yields zero parsable rows makes `extract_table` raise `IndexError`
(`matches[0]` on an empty list), and an exception from `extract_table` on
the first match aborts the extraction of all statements: no entry with an
empty row list is ever produced. -/
theorem c2_zero_rows_abort :
    (∀ t, findAllRows (replaceChar '$' ' ' t) = [] →
      extractTable t = .error .indexError) ∧
    (∀ full name ref rest err,
      dedupFirst (findStatementMatches (normWs full)) = (name, ref) :: rest →
      extractTable (pageLookup (splitSep pageBreakSplitSep full) ref) = .error err →
      getFinanceTables full = .error err) := by
  constructor
  · intro t h
    unfold extractTable
    simp only [h]
  · intro full name ref rest err h1 h2
    unfold getFinanceTables
    simp only [h1]
    unfold financeLoop
    simp only [h2]

/-- Witness for C2 amended: the input of the counterexample, with both
hypotheses discharged concretely. -/
theorem c2_zero_rows_abort_witness :
    extractTable (lit "Balance Sheets F-2") = .error .indexError ∧
    getFinanceTables (lit "Balance Sheets F-2") = .error .indexError :=
  ⟨c2_zero_rows_abort.1 (lit "Balance Sheets F-2") (by decide),
   c2_zero_rows_abort.2 (lit "Balance Sheets F-2") (lit "Balance Sheets") (lit "F-2") []
     .indexError (by decide) (by decide)⟩

/-- Document for the C5 analysis: two pages, the second holding a bold
"ITEM 2." heading. -/
def docC5 : List (List RawSpan) :=
  [[⟨lit "p", false, false, 0, 0⟩], [⟨lit "ITEM 2.", true, false, 0, 0⟩]]

/-- C5 counterexample. "Item 1" has `end_page + 2 = 7` beyond the two-page
document, so its window read raises; because the whole section loop runs
inside one `try`, the batch ends there and "Item 2" - which succeeds when
processed alone - is never extracted: one item's failure does halt the
others. -/
theorem c5_batch_abort_counterexample :
    processSections docC5
      [(lit "Item 1", ⟨[], 5, 5, none⟩), (lit "Item 2", ⟨[], 0, 0, none⟩)] = [] ∧
    processSections docC5 [(lit "Item 2", ⟨[], 0, 0, none⟩)] =
      [(lit "Item 2", lit "**ITEM 2.**")] := by
  decide

/-- Unfolding equation of the section loop at a cons cell. -/
lemma processSections_cons (doc : List (List RawSpan)) (item : Str) (d : Entry)
    (rest : List (Str × Entry)) :
    processSections doc ((item, d) :: rest) =
      match processSectionItem doc item d with
      | .error _ => []
      | .ok none => processSections doc rest
      | .ok (some s) => (item, s) :: processSections doc rest := rfl

/-- C5 amended. An item whose start marker is not found in its page window
is logged and skipped and the batch continues with the remaining items;
but an item whose processing raises an exception (for example a page
window beyond the document) ends the whole batch: the remaining items are
not extracted. -/
theorem c5_item_failure_handling :
    (∀ (doc : List (List RawSpan)) (item : Str) (d : Entry) rest text,
      getPageTexts doc ((d.start_page : Int) + 1) (some ((d.end_page : Int) + 2)) = .ok text →
      findSubstrIdx (startMarker item) text = none →
      processSections doc ((item, d) :: rest) = processSections doc rest) ∧
    (∀ (doc : List (List RawSpan)) (item : Str) (d : Entry) rest err,
      processSectionItem doc item d = .error err →
      processSections doc ((item, d) :: rest) = []) := by
  constructor
  · intro doc item d rest text hwin hnone
    rw [processSections_cons]
    have hitem : processSectionItem doc item d = .ok none := by
      unfold processSectionItem
      rw [hwin]
      show Except.ok (sectionSlice item text) = .ok none
      unfold sectionSlice
      rw [hnone]
    rw [hitem]
  · intro doc item d rest err h
    rw [processSections_cons, h]

/-- Witness for C5 amended: on `docC5`, "Item 9" has no start marker in its
window and is skipped; "Item 1" raises on its window read and empties the
batch. -/
theorem c5_item_failure_handling_witness :
    processSections docC5 [(lit "Item 9", ⟨[], 0, 0, none⟩)] = processSections docC5 [] ∧
    processSections docC5
      [(lit "Item 1", ⟨[], 5, 5, none⟩), (lit "Item 9", ⟨[], 0, 0, none⟩)] = [] :=
  ⟨c5_item_failure_handling.1 docC5 (lit "Item 9") ⟨[], 0, 0, none⟩ []
     (lit " **ITEM 2.**") (by decide) (by decide),
   c5_item_failure_handling.2 docC5 (lit "Item 1") ⟨[], 5, 5, none⟩
     [(lit "Item 9", ⟨[], 0, 0, none⟩)]
     (.assertionError (lit "End index must be less than the number of pages in the PDF"))
     (by decide)⟩

/-!  Helper lemmas for the layout block structure (C7). -/

lemma perm_insertK {α β : Type} [LinearOrder β] (key : α → β) (a : α) (l : List α) :
    List.Perm (insertK key a l) (a :: l) := by
  induction l with
  | nil => rfl
  | cons b bs ih =>
    by_cases h : key a < key b
    · simp [insertK, h]
    · simp only [insertK, if_neg h]
      exact (ih.cons b).trans (List.Perm.swap a b bs)

lemma perm_sortK {α β : Type} [LinearOrder β] (key : α → β) (l : List α) :
    List.Perm (sortK key l) l := by
  induction l with
  | nil => rfl
  | cons a bs ih => exact (perm_insertK key a (sortK key bs)).trans (ih.cons a)

lemma nodup_sortedKeys {β : Type} [LinearOrder β] (l : List β) :
    (sortedKeys l).Nodup :=
  ((perm_sortK id l.dedup).nodup_iff).mpr l.nodup_dedup

lemma mem_sortedKeys {β : Type} [LinearOrder β] (a : β) (l : List β) :
    a ∈ sortedKeys l ↔ a ∈ l := by
  unfold sortedKeys
  rw [mem_sortK]
  exact List.mem_dedup

lemma sorted_sortedKeys {β : Type} [LinearOrder β] (l : List β) :
    List.Sorted (· ≤ ·) (sortedKeys l) := by
  have h := chain_sortK (id : β → β) l.dedup
  exact List.chain'_iff_pairwise.mp h

lemma sortedKeys_pages (doc : List (List RawSpan)) :
    sortedKeys ((extractAll doc).map (fun s => s.page)) =
      ((List.range doc.length).filter (fun p => decide (doc.getD p [] ≠ []))).map
        (fun p => p + 1) := by
  have hn1 : (sortedKeys ((extractAll doc).map (fun s => s.page))).Nodup :=
    nodup_sortedKeys _
  have hn2 : (((List.range doc.length).filter (fun p => decide (doc.getD p [] ≠ []))).map
      (fun p => p + 1)).Nodup := by
    refine List.Nodup.map (fun a b h => by omega) ?_
    exact (List.nodup_range _).filter _
  have hmem : ∀ a, a ∈ sortedKeys ((extractAll doc).map (fun s => s.page)) ↔
      a ∈ ((List.range doc.length).filter (fun p => decide (doc.getD p [] ≠ []))).map
        (fun p => p + 1) := by
    intro a
    rw [mem_sortedKeys]
    simp only [extractAll, extractTextWithFormatting, List.mem_map, List.mem_flatMap,
      List.mem_range, List.mem_filter, decide_eq_true_eq]
    constructor
    · rintro ⟨s, ⟨p, hp, r, hr, hs⟩, hpage⟩
      refine ⟨p, ⟨hp, ?_⟩, ?_⟩
      · intro hempty
        rw [hempty] at hr
        exact absurd hr (List.not_mem_nil r)
      · rw [← hpage, ← hs]
    · rintro ⟨p, ⟨hp, hne⟩, ha⟩
      cases hl : doc.getD p [] with
      | nil => exact absurd hl hne
      | cons r rs =>
        exact ⟨_, ⟨p, hp, r, by rw [hl]; exact List.mem_cons_self r rs, rfl⟩, ha⟩
  have hperm : List.Perm (sortedKeys ((extractAll doc).map (fun s => s.page)))
      (((List.range doc.length).filter (fun p => decide (doc.getD p [] ≠ []))).map
        (fun p => p + 1)) :=
    (List.perm_ext_iff_of_nodup hn1 hn2).mpr hmem
  have hs1 : List.Sorted (fun x y => x ≤ y) (sortedKeys ((extractAll doc).map (fun s => s.page))) :=
    sorted_sortedKeys _
  have hs2 : List.Sorted (fun x y => x ≤ y)
      ((((List.range doc.length).filter (fun p => decide (doc.getD p [] ≠ []))).map
        (fun p => p + 1)) : List Nat) := by
    have h0 : List.Pairwise (fun x y => x < y) (List.range doc.length) :=
      List.pairwise_lt_range _
    have h1 : List.Pairwise (fun x y => x < y)
        ((List.range doc.length).filter (fun p => decide (doc.getD p [] ≠ []))) :=
      List.Pairwise.sublist (List.filter_sublist _) h0
    exact List.pairwise_map.mpr (h1.imp (fun h => by omega))
  exact List.eq_of_perm_of_sorted hperm hs1 hs2

/-- Document for the C7 analysis: three pages, the middle one without
spans. -/
def docC7 : List (List RawSpan) :=
  [[⟨lit "a", false, false, 0, 0⟩], [], [⟨lit "b", false, false, 0, 0⟩]]

/-- C7 counterexample. A three-page document whose middle page has no
spans produces only two text blocks - the span-less page yields no block
at all, not an empty one, so the full text does not contain one block per
page. -/
theorem c7_empty_page_counterexample :
    docC7.length = 3 ∧
    createTextByPage (extractAll docC7) = [lit " a", lit " b"] ∧
    processPdfFullText docC7 = lit " a" ++ pageBreakJoin ++ lit " b" := by
  decide

/-- C7 amended. `create_text_by_page` yields one block per page that has
at least one span, in ascending page order; a page with no spans
contributes no block (so a document with such a page yields fewer blocks
than pages); the full-document text joins exactly these blocks with the
page-break delimiter. -/
theorem c7_page_blocks (doc : List (List RawSpan)) :
    createTextByPage (extractAll doc) =
      ((List.range doc.length).filter (fun p => decide (doc.getD p [] ≠ []))).map
        (fun p => renderPage (extractAll doc) (p + 1)) ∧
    processPdfFullText doc = joinSep pageBreakJoin (createTextByPage (extractAll doc)) ∧
    (∀ p, p < doc.length → doc.getD p [] = [] →
      (createTextByPage (extractAll doc)).length < doc.length) := by
  have h1 : createTextByPage (extractAll doc) =
      ((List.range doc.length).filter (fun p => decide (doc.getD p [] ≠ []))).map
        (fun p => renderPage (extractAll doc) (p + 1)) := by
    unfold createTextByPage
    rw [sortedKeys_pages, List.map_map]
    rfl
  refine ⟨h1, rfl, ?_⟩
  intro p hp hempty
  rw [h1, List.length_map]
  have hlt : (((List.range doc.length).filter (fun q => decide (doc.getD q [] ≠ []))).length) <
      (List.range doc.length).length := by
    rw [List.length_filter_lt_length_iff_exists]
    exact ⟨p, List.mem_range.mpr hp, by simp only [decide_eq_true_eq, not_not]; exact hempty⟩
  simpa using hlt

/-- Witness for C7 amended: on `docC7`, the blocks are exactly those of
the span-bearing pages and there are fewer blocks than pages. -/
theorem c7_page_blocks_witness :
    createTextByPage (extractAll docC7) =
      ((List.range docC7.length).filter (fun p => decide (docC7.getD p [] ≠ []))).map
        (fun p => renderPage (extractAll docC7) (p + 1)) ∧
    (createTextByPage (extractAll docC7)).length < docC7.length :=
  ⟨(c7_page_blocks docC7).1, (c7_page_blocks docC7).2.2 1 (by decide) (by decide)⟩

/-!  Helper lemmas for the index scan (C4). -/

/-- The text `get_page_texts(pdf_path, p)` returns for one in-range page. -/
def pageTextOne (doc : List (List RawSpan)) (p : Nat) : Str :=
  joinNl ((createTextByPage (extractTextWithFormatting doc [p])).map cleanText)

/-- The page text as the index scan sees it ("**" replaced by a space). -/
def pageScanText (doc : List (List RawSpan)) (p : Nat) : Str :=
  replaceDoubleStar (pageTextOne doc p)

lemma getPageTexts_single (doc : List (List RawSpan)) (p : Nat) (hp : p < doc.length) :
    getPageTexts doc (p : Int) none = .ok (pageTextOne doc p) := by
  unfold getPageTexts
  simp only [Option.getD_none]
  have h1 : (p : Int) < (p : Int) + 1 := by omega
  have h2 : (0 : Int) ≤ (p : Int) := by positivity
  have h3 : (p : Int) + 1 ≤ (doc.length : Int) := by omega
  rw [if_pos h1, if_pos h2, if_pos h3]
  have hrange : intRangePages (p : Int) ((p : Int) + 1) = [p] := by
    unfold intRangePages
    have : ((p : Int) + 1 - (p : Int)).toNat = 1 := by omega
    rw [this]
    rfl
  rw [hrange]
  rfl

lemma findIndexGo_none (doc : List (List RawSpan)) (ps : List Nat)
    (hin : ∀ p ∈ ps, p < doc.length)
    (hmark : ∀ p ∈ ps, hasIndexMarkers (pageScanText doc p) = false) :
    findIndexGo doc ps = .ok none := by
  induction ps with
  | nil => rfl
  | cons p rest ih =>
    unfold findIndexGo
    rw [getPageTexts_single doc p (hin p (List.mem_cons_self p rest))]
    have hm : hasIndexMarkers (replaceDoubleStar (pageTextOne doc p)) = false :=
      hmark p (List.mem_cons_self p rest)
    simp only [hm, Bool.false_eq_true, if_false]
    exact ih (fun q hq => hin q (List.mem_cons_of_mem p hq))
      (fun q hq => hmark q (List.mem_cons_of_mem p hq))

/-- C4. When none of the first `min(10, total_pages)` reconstructed pages
contains both the "PART I" marker and the "Item 1." marker (after "**" is
replaced by a space), `get_pdf_info` fails with the fatal
`ValueError("Could not find index in first 10 pages")` - raised before the
index artifact is written, so nothing is persisted - and the upload flow
propagates the error, so no section or table work proceeds for that
document. -/
theorem c4_index_not_found (doc : List (List RawSpan))
    (h : ∀ p, p < min 10 doc.length → hasIndexMarkers (pageScanText doc p) = false) :
    getPdfInfo doc = .error (.valueError (lit "Could not find index in first 10 pages")) ∧
    uploadPipeline doc = .error (.valueError (lit "Could not find index in first 10 pages")) := by
  have hfind : findIndexText doc = .ok none := by
    apply findIndexGo_none
    · intro p hp
      have := List.mem_range.mp hp
      omega
    · intro p hp
      exact h p (List.mem_range.mp hp)
  have hinfo : getPdfInfo doc =
      .error (.valueError (lit "Could not find index in first 10 pages")) := by
    unfold getPdfInfo
    rw [hfind]
  refine ⟨hinfo, ?_⟩
  unfold uploadPipeline
  rw [hinfo]

/-- Document for the C4 witness: one page with no index markers. -/
def docC4 : List (List RawSpan) := [[⟨lit "hello", false, false, 0, 0⟩]]

/-- Witness for C4: on `docC4` the marker hypothesis holds concretely and
both the indexer and the whole upload flow fail with the fatal error. -/
theorem c4_index_not_found_witness :
    (∀ p, p < min 10 docC4.length → hasIndexMarkers (pageScanText docC4 p) = false) ∧
    getPdfInfo docC4 = .error (.valueError (lit "Could not find index in first 10 pages")) ∧
    uploadPipeline docC4 = .error (.valueError (lit "Could not find index in first 10 pages")) :=
  ⟨by decide, (c4_index_not_found docC4 (by decide)).1, (c4_index_not_found docC4 (by decide)).2⟩

/-!  Helper lemmas for line splitting (C9). -/

lemma splitLines_ne_nil (u : Str) : splitLines u ≠ [] := by
  cases u with
  | nil => simp [splitLines]
  | cons c rest =>
    by_cases h : c = '\n'
    · simp [splitLines, h]
    · simp only [splitLines, if_neg h]
      cases splitLines rest <;> simp

lemma splitLines_cons_nl (w : Str) : splitLines ('\n' :: w) = [] :: splitLines w := by
  simp [splitLines]

lemma splitLines_append (a b : Str) :
    splitLines (a ++ '\n' :: b) = splitLines a ++ splitLines b := by
  induction a with
  | nil => simp [splitLines]
  | cons c a ih =>
    by_cases h : c = '\n'
    · subst h
      show splitLines ('\n' :: (a ++ '\n' :: b)) = splitLines ('\n' :: a) ++ splitLines b
      rw [splitLines_cons_nl, splitLines_cons_nl, ih]
      rfl
    · show splitLines (c :: (a ++ '\n' :: b)) = splitLines (c :: a) ++ splitLines b
      simp only [splitLines, if_neg h]
      rw [ih]
      cases ha : splitLines a with
      | nil => exact absurd ha (splitLines_ne_nil a)
      | cons l ls => simp

lemma splitLines_no_nl (u : Str) : ∀ l ∈ splitLines u, '\n' ∉ l := by
  induction u with
  | nil =>
    intro l hl
    simp [splitLines] at hl
    simp [hl]
  | cons c rest ih =>
    intro l hl
    by_cases h : c = '\n'
    · rw [h, splitLines_cons_nl] at hl
      rcases List.mem_cons.mp hl with h1 | h1
      · simp [h1]
      · exact ih l h1
    · simp only [splitLines, if_neg h] at hl
      cases hs : splitLines rest with
      | nil => exact absurd hs (splitLines_ne_nil rest)
      | cons x xs =>
        rw [hs] at hl
        rcases List.mem_cons.mp hl with h1 | h1
        · subst h1
          intro hmem
          rcases List.mem_cons.mp hmem with h2 | h2
          · exact h h2.symm
          · exact ih x (by rw [hs]; exact List.mem_cons_self x xs) h2
        · exact ih l (by rw [hs]; exact List.mem_cons_of_mem x h1)

lemma splitLines_single (u : Str) (h : '\n' ∉ u) : splitLines u = [u] := by
  induction u with
  | nil => rfl
  | cons c rest ih =>
    have hc : c ≠ '\n' := fun hh => h (by rw [hh]; exact List.mem_cons_self _ _)
    have hrest : '\n' ∉ rest := fun hh => h (List.mem_cons_of_mem c hh)
    simp only [splitLines, if_neg hc, ih hrest]

lemma joinNl_cons_cons (p q : Str) (rest : List Str) :
    joinNl (p :: q :: rest) = p ++ '\n' :: joinNl (q :: rest) := by
  show p ++ lit "\n" ++ joinSep (lit "\n") (q :: rest) = _
  simp [lit, joinNl]

lemma mem_splitLines_joinNl (parts : List Str) (line : Str)
    (h : line ∈ splitLines (joinNl parts)) :
    (parts = [] ∧ line = []) ∨ ∃ p ∈ parts, line ∈ splitLines p := by
  induction parts with
  | nil =>
    left
    simp [joinNl, joinSep, splitLines] at h
    exact ⟨rfl, h⟩
  | cons p rest ih =>
    cases rest with
    | nil =>
      right
      exact ⟨p, by simp, by simpa [joinNl, joinSep] using h⟩
    | cons q rest2 =>
      rw [joinNl_cons_cons, splitLines_append] at h
      rcases List.mem_append.mp h with h1 | h1
      · exact Or.inr ⟨p, List.mem_cons_self _ _, h1⟩
      · rcases ih h1 with ⟨hnil, _⟩ | ⟨r, hr, hlr⟩
        · exact absurd hnil (by simp)
        · exact Or.inr ⟨r, List.mem_cons_of_mem p hr, hlr⟩

lemma cleanText_lines (u line : Str) (h : line ∈ splitLines (cleanText u)) :
    isNumericLine line = false ∧ stripWs line ≠ lit "Table of Contents" := by
  unfold cleanText at h
  rcases mem_splitLines_joinNl _ _ h with ⟨_, hline⟩ | ⟨p, hp, hlp⟩
  · subst hline
    exact ⟨by decide, by decide⟩
  · rcases List.mem_filter.mp hp with ⟨hp1, hp2⟩
    have hnl : '\n' ∉ p := splitLines_no_nl _ p hp1
    rw [splitLines_single p hnl] at hlp
    have hlinep : line = p := by simpa using hlp
    subst hlinep
    constructor
    · rcases mem_splitLines_joinNl _ _ hp1 with ⟨_, hpe⟩ | ⟨q, hq, hpq⟩
      · rw [hpe]; decide
      · rcases List.mem_filter.mp hq with ⟨hq1, hq2⟩
        have hqnl : '\n' ∉ q := splitLines_no_nl _ q hq1
        rw [splitLines_single q hqnl] at hpq
        have hlq : line = q := by simpa using hpq
        rw [hlq]
        simpa using hq2
    · simpa using hp2

lemma pb_decomp : pageBreakJoin =
    '\n' :: '\n' :: (lit "======= Page Break =======" ++ '\n' :: '\n' :: []) := by
  decide

lemma mem_splitLines_joinSep_pb (parts : List Str) (b line : Str)
    (hb : b ∈ parts) (hl : line ∈ splitLines b) :
    line ∈ splitLines (joinSep pageBreakJoin parts) := by
  induction parts with
  | nil => cases hb
  | cons p rest ih =>
    cases rest with
    | nil =>
      rcases List.mem_cons.mp hb with h | h
      · subst h
        simpa [joinSep] using hl
      · cases h
    | cons q rest2 =>
      have hsplit : splitLines (joinSep pageBreakJoin (p :: q :: rest2)) =
          splitLines p ++ [] :: ([lit "======= Page Break ======="] ++
            [] :: splitLines (joinSep pageBreakJoin (q :: rest2))) := by
        show splitLines (p ++ pageBreakJoin ++ joinSep pageBreakJoin (q :: rest2)) = _
        have hshape : p ++ pageBreakJoin ++ joinSep pageBreakJoin (q :: rest2) =
            p ++ '\n' :: ('\n' :: (lit "======= Page Break =======" ++
              '\n' :: ('\n' :: joinSep pageBreakJoin (q :: rest2)))) := by
          rw [pb_decomp]
          simp [List.append_assoc]
        rw [hshape, splitLines_append, splitLines_cons_nl, splitLines_append,
          splitLines_cons_nl, splitLines_single (lit "======= Page Break =======") (by decide)]
      rcases List.mem_cons.mp hb with h | h
      · subst h
        rw [hsplit]
        exact List.mem_append_left _ hl
      · rw [hsplit]
        refine List.mem_append_right _ ?_
        refine List.mem_cons_of_mem _ ?_
        refine List.mem_append_right _ ?_
        exact List.mem_cons_of_mem _ (ih h)

/-- C9. Every page text returned by `get_page_texts` - the text used for
index detection, index parsing and section extraction - has all lines that
are digits-and-spaces (with at least one digit) and all lines whose
stripped form is "Table of Contents" removed by `clean_text`; whereas the
persisted full-text artifact of `process_pdf` is built without this
cleaning: every line of every reconstructed block, including such lines,
appears among the full text's lines. -/
theorem c9_clean_text_vs_full_text :
    (∀ (doc : List (List RawSpan)) (s : Int) (eOpt : Option Int) (t line : Str),
      getPageTexts doc s eOpt = .ok t → line ∈ splitLines t →
      isNumericLine line = false ∧ stripWs line ≠ lit "Table of Contents") ∧
    (∀ (doc : List (List RawSpan)) (b line : Str),
      b ∈ createTextByPage (extractAll doc) → line ∈ splitLines b →
      line ∈ splitLines (processPdfFullText doc)) := by
  constructor
  · intro doc s eOpt t line hok hline
    unfold getPageTexts at hok
    by_cases h1 : s < Option.getD eOpt (s + 1)
    · rw [if_pos h1] at hok
      by_cases h2 : (0 : Int) ≤ s
      · rw [if_pos h2] at hok
        by_cases h3 : Option.getD eOpt (s + 1) ≤ (doc.length : Int)
        · rw [if_pos h3] at hok
          have ht : t = joinNl ((createTextByPage
              (extractTextWithFormatting doc (intRangePages s (Option.getD eOpt (s + 1))))).map
                cleanText) := (Except.ok.inj hok).symm
          subst ht
          rcases mem_splitLines_joinNl _ _ hline with ⟨_, hl⟩ | ⟨p, hp, hlp⟩
          · subst hl
            exact ⟨by decide, by decide⟩
          · rcases List.mem_map.mp hp with ⟨u, _, hu⟩
            rw [← hu] at hlp
            exact cleanText_lines u line hlp
        · rw [if_neg h3] at hok
          exact absurd hok (by simp)
      · rw [if_neg h2] at hok
        exact absurd hok (by simp)
    · rw [if_neg h1] at hok
      exact absurd hok (by simp)
  · intro doc b line hb hline
    exact mem_splitLines_joinSep_pb _ b line hb hline

/-- Witness for C9: a cleaned page read satisfies the line conditions, and
a digits-only line of a reconstructed block is retained in the full-text
artifact. -/
theorem c9_clean_text_vs_full_text_witness :
    (isNumericLine (lit " ab") = false ∧ stripWs (lit " ab") ≠ lit "Table of Contents") ∧
    (lit " 12") ∈ splitLines (processPdfFullText [[⟨lit "12", false, false, 0, 0⟩]]) :=
  ⟨c9_clean_text_vs_full_text.1 [[⟨lit "ab", false, false, 0, 0⟩]] 0 none
     (lit " ab") (lit " ab") (by decide) (by decide),
   c9_clean_text_vs_full_text.2 [[⟨lit "12", false, false, 0, 0⟩]] (lit " 12") (lit " 12")
     (by decide) (by decide)⟩

/-!  Helper lemmas for the slice analysis (C3). -/

lemma firstIdxWhere_some (p : Str → Bool) (t : Str) (i : Nat)
    (h : firstIdxWhere p t = some i) :
    p (t.drop i) = true ∧ (∀ j, j < i → p (t.drop j) = false) ∧ i ≤ t.length := by
  induction t generalizing i with
  | nil =>
    by_cases hp : p []
    · simp only [firstIdxWhere, if_pos hp] at h
      have : i = 0 := (Option.some.inj h).symm
      subst this
      exact ⟨by simpa using hp, fun j hj => absurd hj (by omega), by simp⟩
    · simp only [firstIdxWhere, if_neg hp] at h
      exact absurd h (by simp)
  | cons c rest ih =>
    by_cases hp : p (c :: rest)
    · simp only [firstIdxWhere, if_pos hp] at h
      have : i = 0 := (Option.some.inj h).symm
      subst this
      exact ⟨by simpa using hp, fun j hj => absurd hj (by omega), by simp⟩
    · simp only [firstIdxWhere, if_neg hp] at h
      cases hrec : firstIdxWhere p rest with
      | none => rw [hrec] at h; exact absurd h (by simp)
      | some i' =>
        rw [hrec] at h
        have hi : i = i' + 1 := by simpa using h.symm
        subst hi
        rcases ih i' hrec with ⟨h1, h2, h3⟩
        refine ⟨by simpa using h1, ?_, by simpa using h3⟩
        intro j hj
        cases j with
        | zero => simpa using (Bool.not_eq_true _).mp hp
        | succ j' => exact h2 j' (by omega)

lemma firstIdxWhere_none (p : Str → Bool) (t : Str)
    (h : firstIdxWhere p t = none) : ∀ j, p (t.drop j) = false := by
  induction t with
  | nil =>
    intro j
    by_cases hp : p []
    · simp [firstIdxWhere, if_pos hp] at h
    · simpa using (Bool.not_eq_true _).mp hp
  | cons c rest ih =>
    intro j
    by_cases hp : p (c :: rest)
    · simp [firstIdxWhere, if_pos hp] at h
    · simp only [firstIdxWhere, if_neg hp] at h
      cases j with
      | zero => simpa using (Bool.not_eq_true _).mp hp
      | succ j' =>
        cases hrec : firstIdxWhere p rest with
        | none => exact ih hrec j'
        | some i' => rw [hrec] at h; exact absurd h (by simp)

lemma isPrefixOf_length_le (p l : Str) (h : p.isPrefixOf l) : p.length ≤ l.length :=
  (List.isPrefixOf_iff_prefix.mp h).length_le

lemma itemHeadingTest_pos (u : Str) (h : itemHeadingTest u = true) : 0 < u.length := by
  cases u with
  | nil => exact absurd h (by decide)
  | cons c r => simp

lemma startMarker_pos (item : Str) : 0 < (startMarker item).length := by
  unfold startMarker
  simp [lit]

lemma getPageTexts_ok_eq (doc : List (List RawSpan)) (s : Int) (eOpt : Option Int) (t : Str)
    (h : getPageTexts doc s eOpt = .ok t) :
    t = joinNl ((createTextByPage (extractTextWithFormatting doc
      (intRangePages s (eOpt.getD (s + 1))))).map cleanText) := by
  unfold getPageTexts at h
  by_cases h1 : s < Option.getD eOpt (s + 1)
  · rw [if_pos h1] at h
    by_cases h2 : (0 : Int) ≤ s
    · rw [if_pos h2] at h
      by_cases h3 : Option.getD eOpt (s + 1) ≤ (doc.length : Int)
      · rw [if_pos h3] at h
        exact (Except.ok.inj h).symm
      · rw [if_neg h3] at h
        exact absurd h (by simp)
    · rw [if_neg h2] at h
      exact absurd h (by simp)
  · rw [if_neg h1] at h
    exact absurd h (by simp)

lemma sectionSlice_eq_of_none (item text : Str)
    (h : findSubstrIdx (startMarker item) text = none) :
    sectionSlice item text = none := by
  unfold sectionSlice
  rw [h]

lemma sectionSlice_eq_of_some (item text : Str) (i : Nat)
    (h : findSubstrIdx (startMarker item) text = some i) :
    sectionSlice item text =
      match firstIdxWhere itemHeadingTest (text.drop (i + (startMarker item).length)) with
      | some j => some ((text.drop i).take ((startMarker item).length + j))
      | none => some (text.drop i) := by
  unfold sectionSlice
  rw [h]

/-- C3. For an index entry whose window read succeeds, the segmenter
processes exactly the page window `(start_page + 1)` to `(end_page + 2)` -
the pages it reconstructs and cleans are `start_page + 1 .. end_page + 1`
(zero-based) - and the produced section text starts at the first
occurrence of the emphasis-marked item heading (double marker, upper-cased
item label, period) and ends just before the first emphasis-marked
"ITEM <num>." heading found after the start marker, or runs to the end of
the window when no such heading follows. -/
theorem c3_section_window_and_slice (doc : List (List RawSpan)) (item : Str) (d : Entry)
    (text : Str)
    (hwin : getPageTexts doc ((d.start_page : Int) + 1)
      (some ((d.end_page : Int) + 2)) = .ok text) :
    processSectionItem doc item d = .ok (sectionSlice item text) ∧
    text = joinNl ((createTextByPage (extractTextWithFormatting doc
      ((List.range (d.end_page + 1 - d.start_page)).map
        (fun k => d.start_page + 1 + k)))).map cleanText) ∧
    ∀ s, sectionSlice item text = some s →
      (startMarker item).isPrefixOf s ∧
      ∃ i, i + s.length ≤ text.length ∧ s = (text.drop i).take s.length ∧
        (startMarker item).isPrefixOf (text.drop i) ∧
        (∀ j, j < i → ¬ (startMarker item).isPrefixOf (text.drop j)) ∧
        ((i + s.length = text.length ∧
            ∀ k, i + (startMarker item).length ≤ k →
              itemHeadingTest (text.drop k) = false) ∨
          (itemHeadingTest (text.drop (i + s.length)) = true ∧
            ∀ k, i + (startMarker item).length ≤ k → k < i + s.length →
              itemHeadingTest (text.drop k) = false)) := by
  refine ⟨?_, ?_, ?_⟩
  · unfold processSectionItem
    rw [hwin]
  · have h := getPageTexts_ok_eq _ _ _ _ hwin
    rw [h]
    have hr : intRangePages ((d.start_page : Int) + 1)
        (Option.getD (some ((d.end_page : Int) + 2)) (((d.start_page : Int) + 1) + 1)) =
        (List.range (d.end_page + 1 - d.start_page)).map (fun k => d.start_page + 1 + k) := by
      simp only [Option.getD_some]
      unfold intRangePages
      have h1 : ((d.end_page : Int) + 2 - ((d.start_page : Int) + 1)).toNat =
          d.end_page + 1 - d.start_page := by omega
      have h2 : ((d.start_page : Int) + 1).toNat = d.start_page + 1 := by omega
      rw [h1, h2]
    rw [hr]
  · intro s hs
    cases hfind : findSubstrIdx (startMarker item) text with
    | none => rw [sectionSlice_eq_of_none item text hfind] at hs; exact absurd hs (by simp)
    | some i =>
      rw [sectionSlice_eq_of_some item text i hfind] at hs
      rcases firstIdxWhere_some _ _ _ hfind with ⟨hpre, hmin, hile⟩
      have hmlen := startMarker_pos item
      have hilt : i < text.length := by
        have := isPrefixOf_length_le _ _ hpre
        rw [List.length_drop] at this
        omega
      cases hnext : firstIdxWhere itemHeadingTest
          (text.drop (i + (startMarker item).length)) with
      | some j =>
        rw [hnext] at hs
        have hs' : s = (text.drop i).take ((startMarker item).length + j) :=
          (Option.some.inj hs).symm
        rcases firstIdxWhere_some _ _ _ hnext with ⟨hh, hhmin, hjle⟩
        have hjlt : i + (startMarker item).length + j < text.length := by
          have hp := itemHeadingTest_pos _ hh
          have hlen : ((text.drop (i + (startMarker item).length)).drop j).length =
              text.length - (i + (startMarker item).length) - j := by
            simp only [List.length_drop]
          omega
        have hslen : s.length = (startMarker item).length + j := by
          rw [hs', List.length_take, List.length_drop]
          omega
        refine ⟨?_, i, ?_, ?_, hpre, ?_, Or.inr ⟨?_, ?_⟩⟩
        · rw [hs']
          apply List.isPrefixOf_iff_prefix.mpr
          apply List.prefix_take_iff.mpr
          exact ⟨List.isPrefixOf_iff_prefix.mp hpre, by omega⟩
        · omega
        · rw [hslen]
          exact hs'
        · intro j' hj'
          rw [hmin j' hj']
          simp
        · rw [hslen]
          have hdd : text.drop (i + ((startMarker item).length + j)) =
              (text.drop (i + (startMarker item).length)).drop j := by
            rw [List.drop_drop]
            congr 1
            omega
          rw [hdd]
          exact hh
        · intro k hk1 hk2
          rw [hslen] at hk2
          have hk' : k - (i + (startMarker item).length) < j := by omega
          have hres := hhmin _ hk'
          rw [List.drop_drop] at hres
          have heq : i + (startMarker item).length + (k - (i + (startMarker item).length)) = k := by
            omega
          rw [heq] at hres
          exact hres
      | none =>
        rw [hnext] at hs
        have hs' : s = text.drop i := (Option.some.inj hs).symm
        have hslen : s.length = text.length - i := by rw [hs']; simp
        refine ⟨?_, i, ?_, ?_, hpre, ?_, Or.inl ⟨?_, ?_⟩⟩
        · rw [hs']
          exact hpre
        · omega
        · rw [hslen, hs']
          have hlen2 : text.length - i = (text.drop i).length := by simp
          rw [hlen2, List.take_length]
        · intro j' hj'
          rw [hmin j' hj']
          simp
        · omega
        · intro k hk
          have hmins := firstIdxWhere_none _ _ hnext
          have hres := hmins (k - (i + (startMarker item).length))
          rw [List.drop_drop] at hres
          have heq : i + (startMarker item).length + (k - (i + (startMarker item).length)) = k := by
            omega
          rw [heq] at hres
          exact hres

/-- Document for the C3 witness: the second page holds a bold "ITEM 2A."
heading followed by a bold "ITEM 3." heading on the next line. -/
def docC3 : List (List RawSpan) :=
  [[⟨lit "x", false, false, 0, 0⟩],
   [⟨lit "ITEM 2A.", true, false, 0, 0⟩, ⟨lit "ITEM 3.", true, false, 0, 10⟩]]

/-- Witness for C3: for the entry `{start_page = 0, end_page = 0}` on
`docC3` the window text is that of page 1 only, and the slice for
"Item 2A" starts at its heading and ends just before the "ITEM 3."
heading. -/
theorem c3_section_window_and_slice_witness :
    processSectionItem docC3 (lit "Item 2A") ⟨[], 0, 0, none⟩ =
      .ok (sectionSlice (lit "Item 2A") (lit " **ITEM 2A.**\n **ITEM 3.**")) ∧
    ((startMarker (lit "Item 2A")).isPrefixOf (lit "**ITEM 2A.**\n ") ∧
      ∃ i, i + (lit "**ITEM 2A.**\n ").length ≤ (lit " **ITEM 2A.**\n **ITEM 3.**").length ∧
        lit "**ITEM 2A.**\n " =
          ((lit " **ITEM 2A.**\n **ITEM 3.**").drop i).take (lit "**ITEM 2A.**\n ").length ∧
        (startMarker (lit "Item 2A")).isPrefixOf ((lit " **ITEM 2A.**\n **ITEM 3.**").drop i) ∧
        (∀ j, j < i → ¬ (startMarker (lit "Item 2A")).isPrefixOf
          ((lit " **ITEM 2A.**\n **ITEM 3.**").drop j)) ∧
        ((i + (lit "**ITEM 2A.**\n ").length = (lit " **ITEM 2A.**\n **ITEM 3.**").length ∧
            ∀ k, i + (startMarker (lit "Item 2A")).length ≤ k →
              itemHeadingTest ((lit " **ITEM 2A.**\n **ITEM 3.**").drop k) = false) ∨
          (itemHeadingTest ((lit " **ITEM 2A.**\n **ITEM 3.**").drop
              (i + (lit "**ITEM 2A.**\n ").length)) = true ∧
            ∀ k, i + (startMarker (lit "Item 2A")).length ≤ k →
              k < i + (lit "**ITEM 2A.**\n ").length →
              itemHeadingTest ((lit " **ITEM 2A.**\n **ITEM 3.**").drop k) = false))) :=
  ⟨(c3_section_window_and_slice docC3 (lit "Item 2A") ⟨[], 0, 0, none⟩
      (lit " **ITEM 2A.**\n **ITEM 3.**") (by decide)).1,
   (c3_section_window_and_slice docC3 (lit "Item 2A") ⟨[], 0, 0, none⟩
      (lit " **ITEM 2A.**\n **ITEM 3.**") (by decide)).2.2
     (lit "**ITEM 2A.**\n ") (by decide)⟩
